import Mathlib

/-!
Verification development for the AlphaAHB V5 execution-core example code
(`src/examples/cpu-implementation.c`, `src/examples/vector-operations.c`,
`src/examples/neural-network.c`, `src/examples/advanced-arithmetic.c`).

The C code is shallowly embedded: machine integers become `Nat`/`Int` with
explicit reduction modulo `2^w` where the C type wraps, out-parameters and
in-place mutation become explicit state passing, and fallible routines
return an explicit signed status paired with the (possibly unchanged)
state, mirroring the C convention `0 = success, negative = failure`.
-/

namespace AlphaAHB

/-- The 64-bit instruction word of `cpu-implementation.c` (`instruction_t`):
4-bit `opcode`, 4-bit `funct`, 4-bit register selectors `rs2`/`rs1`, a
16-bit immediate and a 32-bit extended payload.  The 4-bit bitfields are
modelled as `Fin 16`; the wider fields play no role in any claim and are
kept as plain naturals. -/
structure Instruction where
  opcode : Fin 16
  funct : Fin 16
  rs2 : Fin 16
  rs1 : Fin 16
  imm : Nat
  extended : Nat
deriving DecidableEq

/-- `instruction_type_t` from `cpu-implementation.c`. -/
inductive InstructionType where
  | ADD | SUB | MUL | DIV | MOD
  | AND | OR | XOR | NOT
  | SHL | SHR | ROT
  | CMP | TEST
  | CLZ | CTZ | POPCNT
  | LOAD | STORE
  | BEQ | BNE | BLT | BLE | BGT | BGE
  | FADD | FSUB | FMUL | FDIV | FSQRT
  | VADD | VSUB | VMUL | VDIV
  | CONV | RELU | SOFTMAX
  | BARRIER | LOCK | UNLOCK | ATOMIC
  | SYSCALL | RET | NOP
deriving DecidableEq, Fintype

/-- The two-level `switch` at the heart of `cpu_decode_instruction`
(`cpu-implementation.c` lines 200-285), on the numeric values of the
4-bit `opcode` and `funct` fields. -/
def decodeCore (opcode funct : Nat) : Option InstructionType :=
  match opcode with
  | 0x0 =>  -- R-Type
    match funct with
    | 0x0 => some .ADD
    | 0x1 => some .SUB
    | 0x2 => some .MUL
    | 0x3 => some .DIV
    | 0x4 => some .MOD
    | 0x5 => some .AND
    | 0x6 => some .OR
    | 0x7 => some .XOR
    | 0x8 => some .SHL
    | 0x9 => some .SHR
    | 0xA => some .ROT
    | 0xB => some .CMP
    | 0xC => some .CLZ
    | 0xD => some .CTZ
    | 0xE => some .POPCNT
    | _ => none
  | 0x1 =>  -- I-Type
    match funct with
    | 0x9 => some .LOAD
    | _ => none
  | 0x2 =>  -- S-Type
    match funct with
    | 0x0 => some .STORE
    | _ => none
  | 0x3 =>  -- B-Type
    match funct with
    | 0x0 => some .BEQ
    | 0x1 => some .BNE
    | 0x2 => some .BLT
    | 0x3 => some .BLE
    | 0x4 => some .BGT
    | 0x5 => some .BGE
    | _ => none
  | 0x8 =>  -- F-Type
    match funct with
    | 0x0 => some .FADD
    | 0x1 => some .FSUB
    | 0x2 => some .FMUL
    | 0x3 => some .FDIV
    | 0x4 => some .FSQRT
    | _ => none
  | 0x6 =>  -- V-Type
    match funct with
    | 0x0 => some .VADD
    | 0x1 => some .VSUB
    | 0x2 => some .VMUL
    | 0x3 => some .VDIV
    | _ => none
  | 0x9 =>  -- A-Type
    match funct with
    | 0x0 => some .CONV
    | 0x2 => some .RELU
    | 0x5 => some .SOFTMAX
    | _ => none
  | 0x7 =>  -- M-Type
    match funct with
    | 0x0 => some .BARRIER
    | 0x1 => some .LOCK
    | 0x2 => some .UNLOCK
    | 0x3 => some .ATOMIC
    | _ => none
  | _ => none

/-- `cpu_decode_instruction` from `cpu-implementation.c` (lines 200-285).
The C function returns `0` and writes the operation into an out-parameter
on success, and returns `-1` (leaving the out-parameter unwritten) on an
unknown `(opcode, funct)` pair; this is embedded as `some op` versus
`none`. -/
def cpu_decode_instruction (inst : Instruction) : Option InstructionType :=
  decodeCore inst.opcode.val inst.funct.val

/-- The documented decode table: every `(opcode, funct)` entry of the
two-level decoder together with the operation it documents (spec section
4.1 and the decode `switch` of `cpu-implementation.c`). -/
def decodeTable : List ((Nat × Nat) × InstructionType) :=
  [ ((0x0, 0x0), .ADD), ((0x0, 0x1), .SUB), ((0x0, 0x2), .MUL),
    ((0x0, 0x3), .DIV), ((0x0, 0x4), .MOD), ((0x0, 0x5), .AND),
    ((0x0, 0x6), .OR), ((0x0, 0x7), .XOR), ((0x0, 0x8), .SHL),
    ((0x0, 0x9), .SHR), ((0x0, 0xA), .ROT), ((0x0, 0xB), .CMP),
    ((0x0, 0xC), .CLZ), ((0x0, 0xD), .CTZ), ((0x0, 0xE), .POPCNT),
    ((0x1, 0x9), .LOAD),
    ((0x2, 0x0), .STORE),
    ((0x3, 0x0), .BEQ), ((0x3, 0x1), .BNE), ((0x3, 0x2), .BLT),
    ((0x3, 0x3), .BLE), ((0x3, 0x4), .BGT), ((0x3, 0x5), .BGE),
    ((0x8, 0x0), .FADD), ((0x8, 0x1), .FSUB), ((0x8, 0x2), .FMUL),
    ((0x8, 0x3), .FDIV), ((0x8, 0x4), .FSQRT),
    ((0x6, 0x0), .VADD), ((0x6, 0x1), .VSUB), ((0x6, 0x2), .VMUL),
    ((0x6, 0x3), .VDIV),
    ((0x9, 0x0), .CONV), ((0x9, 0x2), .RELU), ((0x9, 0x5), .SOFTMAX),
    ((0x7, 0x0), .BARRIER), ((0x7, 0x1), .LOCK), ((0x7, 0x2), .UNLOCK),
    ((0x7, 0x3), .ATOMIC) ]

/-- Every documented table entry decodes to its documented operation. -/
theorem decodeCore_of_mem_decodeTable :
    ∀ e ∈ decodeTable, decodeCore e.1.1 e.1.2 = some e.2 := by decide

/-- Any `(opcode, funct)` pair outside the documented keys decodes to an
error. -/
theorem decodeCore_eq_none_of_not_key :
    ∀ op f : Fin 16,
      ((op.val, f.val) ∈ decodeTable.map Prod.fst) ∨ decodeCore op.val f.val = none := by
  decide

/-- No documented table entry is the NOP operation. -/
theorem decodeTable_no_nop : ∀ e ∈ decodeTable, e.2 ≠ InstructionType.NOP := by decide

/-- `register_file_t` from `cpu-implementation.c`: 64 general-purpose
64-bit registers, 64 single-precision float registers (held as IEEE-754
binary32 bit patterns), 32 vector registers of 64 bytes, plus PC, SP, FP,
LR and the FLAGS word.  All machine words are naturals; written values are
reduced modulo the C type's width at each operation. -/
structure RegisterFile where
  gpr : Fin 64 → Nat
  fpr : Fin 64 → Nat
  vector : Fin 32 → Fin 64 → Nat
  pc : Nat
  sp : Nat
  fp : Nat
  lr : Nat
  flags : Nat

/-- A 4-bit register selector indexes into the 64-entry register banks. -/
def regIndex (r : Fin 16) : Fin 64 := ⟨r.val, by omega⟩

/-- Reduction of an integer into the `uint64_t` value range, i.e. the
wraparound semantics of C unsigned 64-bit arithmetic. -/
def wrap64 (x : Int) : Nat := (x % (2 ^ 64 : Int)).toNat

/-- The result value computed by the `switch (inst->funct)` of
`cpu_execute_arithmetic` (`cpu-implementation.c` lines 293-337); `none`
is the early `return -1` (division by zero or unknown funct).  The C
expression `rs1_val >> (64 - (rs2_val & 0x3F))` in ROT shifts by 64 when
the masked amount is zero; that shift is modelled as the Lean `Nat` shift,
which yields 0 there. -/
def arithmeticResult (funct : Fin 16) (rs1_val rs2_val : Nat) : Option Nat :=
  match funct.val with
  | 0x0 => some (wrap64 ((rs1_val : Int) + (rs2_val : Int)))
  | 0x1 => some (wrap64 ((rs1_val : Int) - (rs2_val : Int)))
  | 0x2 => some (wrap64 ((rs1_val : Int) * (rs2_val : Int)))
  | 0x3 => if rs2_val ≠ 0 then some (rs1_val / rs2_val) else none
  | 0x4 => if rs2_val ≠ 0 then some (rs1_val % rs2_val) else none
  | 0x5 => some (rs1_val &&& rs2_val)
  | 0x6 => some (rs1_val ||| rs2_val)
  | 0x7 => some (rs1_val ^^^ rs2_val)
  | 0x8 => some ((rs1_val <<< (rs2_val &&& 0x3F)) % 2 ^ 64)
  | 0x9 => some (rs1_val >>> (rs2_val &&& 0x3F))
  | 0xA => some (((rs1_val <<< (rs2_val &&& 0x3F)) |||
                  (rs1_val >>> (64 - (rs2_val &&& 0x3F)))) % 2 ^ 64)
  | _ => none

/-- `cpu_execute_arithmetic` from `cpu-implementation.c` (lines 288-356):
reads `gpr[rs1]` and `gpr[rs2]`, computes the funct-selected result,
writes it back to `gpr[rs1]`, then sets/clears the Zero flag (bit 0,
`result == 0`) and the Sign flag (bit 1, `result & 0x8000000000000000`).
Error paths return `-1` before any write.  Returns the C status paired
with the register file after the call. -/
def flagsUpdate (flags result : Nat) : Nat :=
  let flags1 :=
    if result = 0 then flags ||| 0x01
    else flags &&& 0xFFFFFFFFFFFFFFFE
  if result &&& 0x8000000000000000 ≠ 0 then flags1 ||| 0x02
  else flags1 &&& 0xFFFFFFFFFFFFFFFD

def cpu_execute_arithmetic (inst : Instruction) (regs : RegisterFile) :
    Int × RegisterFile :=
  let rs1_val := regs.gpr (regIndex inst.rs1)
  let rs2_val := regs.gpr (regIndex inst.rs2)
  match arithmeticResult inst.funct rs1_val rs2_val with
  | none => (-1, regs)
  | some result =>
    (0, { regs with
            gpr := Function.update regs.gpr (regIndex inst.rs1) result,
            flags := flagsUpdate regs.flags result })

/-- A successful `cpu_execute_arithmetic` call decomposes into a computed
result written back to `gpr[rs1]` plus the flag update; everything else is
carried over unchanged. -/
theorem cpu_execute_arithmetic_success {inst : Instruction} {regs regs' : RegisterFile}
    (h : cpu_execute_arithmetic inst regs = (0, regs')) :
    ∃ result,
      arithmeticResult inst.funct (regs.gpr (regIndex inst.rs1))
          (regs.gpr (regIndex inst.rs2)) = some result ∧
      regs' = { regs with
                  gpr := Function.update regs.gpr (regIndex inst.rs1) result,
                  flags := flagsUpdate regs.flags result } := by
  rcases harith : arithmeticResult inst.funct (regs.gpr (regIndex inst.rs1))
      (regs.gpr (regIndex inst.rs2)) with _ | result
  · exfalso
    simp only [cpu_execute_arithmetic, harith] at h
    exact absurd (show (-1 : Int) = 0 from congrArg Prod.fst h) (by decide)
  · refine ⟨result, rfl, ?_⟩
    simp only [cpu_execute_arithmetic, harith] at h
    exact ((Prod.mk.injEq _ _ _ _).mp h).2.symm

theorem and_sign_bit (n : Nat) : decide (n &&& 0x8000000000000000 ≠ 0) = n.testBit 63 := by
  have h : (0x8000000000000000 : Nat) = 2 ^ 63 := by norm_num
  rw [h, Nat.and_two_pow]
  cases hn : n.testBit 63 <;> simp [hn]

theorem mask_fe_testBit : ∀ i < 64, 1 ≤ i → Nat.testBit 0xFFFFFFFFFFFFFFFE i = true := by
  decide

theorem mask_fd_testBit : ∀ i < 64, i ≠ 1 → Nat.testBit 0xFFFFFFFFFFFFFFFD i = true := by
  decide

theorem testBit_one_of_ne {i : Nat} (h : i ≠ 0) : Nat.testBit 1 i = false := by
  have := Nat.testBit_two_pow_of_ne (Ne.symm h) (n := 0)
  simpa using this

theorem testBit_two_of_ne {i : Nat} (h : i ≠ 1) : Nat.testBit 2 i = false := by
  have := Nat.testBit_two_pow_of_ne (Ne.symm h) (n := 1)
  simpa using this

/-- The Zero flag (bit 0) after the flag-update sequence is set exactly
when the written result is zero. -/
theorem flagsUpdate_testBit_zero (flags result : Nat) :
    (flagsUpdate flags result).testBit 0 = decide (result = 0) := by
  unfold flagsUpdate
  by_cases hs : result &&& 0x8000000000000000 ≠ 0 <;>
    by_cases hz : result = 0 <;>
      simp [hs, hz, Nat.testBit_lor, Nat.testBit_land, testBit_two_of_ne,
        mask_fd_testBit 0 (by omega) (by omega)]

/-- The Sign flag (bit 1) after the flag-update sequence mirrors bit 63 of
the written result. -/
theorem flagsUpdate_testBit_sign (flags result : Nat) :
    (flagsUpdate flags result).testBit 1 = result.testBit 63 := by
  unfold flagsUpdate
  rw [← and_sign_bit result]
  have h11 : Nat.testBit 1 1 = false := by decide
  have h21 : Nat.testBit 2 1 = true := by decide
  have hfe1 : Nat.testBit 0xFFFFFFFFFFFFFFFE 1 = true := by decide
  have hfd1 : Nat.testBit 0xFFFFFFFFFFFFFFFD 1 = false := by decide
  by_cases hs : result &&& 0x8000000000000000 ≠ 0 <;>
    by_cases hz : result = 0 <;>
      simp [hs, hz, Nat.testBit_lor, Nat.testBit_land, h11, h21, hfe1, hfd1]

/-- Flag bits 2 through 63 are untouched by the flag-update sequence. -/
theorem flagsUpdate_testBit_high (flags result : Nat) {i : Nat}
    (h2 : 2 ≤ i) (h64 : i < 64) :
    (flagsUpdate flags result).testBit i = flags.testBit i := by
  unfold flagsUpdate
  by_cases hs : result &&& 0x8000000000000000 ≠ 0 <;>
    by_cases hz : result = 0 <;>
      simp [hs, hz, Nat.testBit_lor, Nat.testBit_land,
        testBit_one_of_ne (show i ≠ 0 by omega),
        testBit_two_of_ne (show i ≠ 1 by omega),
        mask_fe_testBit i h64 (by omega),
        mask_fd_testBit i h64 (by omega)]

/-- An all-zero register file, as produced by `cpu_init`'s `memset` (the
PC/SP/FP seeding plays no role in the claims below). -/
def zeroRegs : RegisterFile :=
  ⟨fun _ => 0, fun _ => 0, fun _ _ => 0, 0, 0, 0, 0, 0⟩

/-- C1: for every instruction word whose `(opcode, funct)` pair is a
documented decode-table entry, `cpu_decode_instruction` succeeds with the
documented operation (`some op` embeds the C success status `0` plus the
out-parameter); for every other `(opcode, funct)` pair among the 256
possible 4-bit/4-bit combinations it reports a decode error (`none`, the C
status `-1`), and in particular never classifies the instruction as NOP or
any other operation. -/
theorem decode_agrees_with_table (inst : Instruction) :
    (∀ t : InstructionType,
      cpu_decode_instruction inst = some t ↔
        ((inst.opcode.val, inst.funct.val), t) ∈ decodeTable)
    ∧ cpu_decode_instruction inst ≠ some InstructionType.NOP := by
  have hiff : ∀ t : InstructionType,
      cpu_decode_instruction inst = some t ↔
        ((inst.opcode.val, inst.funct.val), t) ∈ decodeTable := by
    intro t
    constructor
    · intro h
      rcases decodeCore_eq_none_of_not_key inst.opcode inst.funct with hk | hnone
      · rcases List.mem_map.mp hk with ⟨e, he, hkey⟩
        have h1 := decodeCore_of_mem_decodeTable e he
        have h2 : decodeCore inst.opcode.val inst.funct.val = some t := h
        rw [hkey] at h1
        have ht : e.2 = t := Option.some.inj (h1.symm.trans h2)
        have he' : ((inst.opcode.val, inst.funct.val), t) = e := by
          rw [← hkey, ← ht]
        rw [he']
        exact he
      · have h2 : decodeCore inst.opcode.val inst.funct.val = some t := h
        rw [hnone] at h2
        cases h2
    · intro hmem
      exact decodeCore_of_mem_decodeTable _ hmem
  exact ⟨hiff, fun h => decodeTable_no_nop _ ((hiff _).mp h) rfl⟩

theorem decode_agrees_with_table_witness :
    cpu_decode_instruction ⟨0, 0, 0, 0, 0, 0⟩ = some InstructionType.ADD ∧
    cpu_decode_instruction ⟨4, 0, 0, 0, 0, 0⟩ ≠ some InstructionType.NOP :=
  ⟨((decode_agrees_with_table ⟨0, 0, 0, 0, 0, 0⟩).1 InstructionType.ADD).mpr (by decide),
   (decode_agrees_with_table ⟨4, 0, 0, 0, 0, 0⟩).2⟩

/-- C2: a DIV (funct `0x3`) or MOD (funct `0x4`) instruction whose second
source register holds zero makes `cpu_execute_arithmetic` return the
negative error status `-1` with the register file — every GPR, the FLAGS
word and all other architectural state — exactly as it was before the
call: the error is atomic, nothing is written back. -/
theorem div_mod_by_zero_is_atomic_error (inst : Instruction) (regs : RegisterFile)
    (hf : inst.funct.val = 0x3 ∨ inst.funct.val = 0x4)
    (hz : regs.gpr (regIndex inst.rs2) = 0) :
    cpu_execute_arithmetic inst regs = (-1, regs) := by
  have hnone : arithmeticResult inst.funct (regs.gpr (regIndex inst.rs1))
      (regs.gpr (regIndex inst.rs2)) = none := by
    rcases hf with h | h <;> simp [arithmeticResult, h, hz]
  simp only [cpu_execute_arithmetic, hnone]

theorem div_mod_by_zero_is_atomic_error_witness :
    cpu_execute_arithmetic ⟨0, 3, 2, 1, 0, 0⟩ zeroRegs = (-1, zeroRegs) :=
  div_mod_by_zero_is_atomic_error _ _ (Or.inl rfl) rfl

/-- C3: after any successful `cpu_execute_arithmetic` call, the FLAGS Zero
bit (bit 0) is set iff the 64-bit result written back to `gpr[rs1]` is
exactly zero, and the FLAGS Sign bit (bit 1) equals bit 63 of that
result — for every initial register state and every accepted funct. -/
theorem arith_flags_zero_sign (inst : Instruction) (regs regs' : RegisterFile)
    (h : cpu_execute_arithmetic inst regs = (0, regs')) :
    ((regs'.flags.testBit 0 = true) ↔ regs'.gpr (regIndex inst.rs1) = 0)
    ∧ regs'.flags.testBit 1 = (regs'.gpr (regIndex inst.rs1)).testBit 63 := by
  obtain ⟨result, harith, hres⟩ := cpu_execute_arithmetic_success h
  subst hres
  simp only [Function.update_same]
  constructor
  · rw [flagsUpdate_testBit_zero]
    simp
  · rw [flagsUpdate_testBit_sign]

theorem arith_flags_zero_sign_witness :
    ((cpu_execute_arithmetic ⟨0, 0, 2, 1, 0, 0⟩ zeroRegs).2.flags.testBit 0 = true) :=
  ((arith_flags_zero_sign ⟨0, 0, 2, 1, 0, 0⟩ zeroRegs _ rfl).1).mpr rfl

/-- C10: a successful `cpu_execute_arithmetic` call modifies at most
`gpr[rs1]` and FLAGS bits 0 and 1: every other general-purpose register,
all floating-point and vector registers, PC, SP, FP, LR and FLAGS bits
2 through 63 are unchanged, for every initial register state and every
instruction the unit accepts. -/
theorem arith_frame (inst : Instruction) (regs regs' : RegisterFile)
    (h : cpu_execute_arithmetic inst regs = (0, regs')) :
    (∀ i : Fin 64, i ≠ regIndex inst.rs1 → regs'.gpr i = regs.gpr i)
    ∧ regs'.fpr = regs.fpr ∧ regs'.vector = regs.vector ∧ regs'.pc = regs.pc
    ∧ regs'.sp = regs.sp ∧ regs'.fp = regs.fp ∧ regs'.lr = regs.lr
    ∧ (∀ i : Nat, 2 ≤ i → i < 64 → regs'.flags.testBit i = regs.flags.testBit i) := by
  obtain ⟨result, harith, hres⟩ := cpu_execute_arithmetic_success h
  subst hres
  exact ⟨fun i hi => Function.update_noteq hi _ _, rfl, rfl, rfl, rfl, rfl, rfl,
    fun i h2 h64 => flagsUpdate_testBit_high _ _ h2 h64⟩

theorem arith_frame_witness :
    (cpu_execute_arithmetic ⟨0, 0, 2, 1, 0, 0⟩ zeroRegs).2.pc = zeroRegs.pc ∧
    (cpu_execute_arithmetic ⟨0, 0, 2, 1, 0, 0⟩ zeroRegs).2.gpr 5 = zeroRegs.gpr 5 :=
  ⟨(arith_frame ⟨0, 0, 2, 1, 0, 0⟩ zeroRegs _ rfl).2.2.2.1,
   (arith_frame ⟨0, 0, 2, 1, 0, 0⟩ zeroRegs _ rfl).1 5 (by decide)⟩

/-- The IEEE-754 binary32 arithmetic of the FPU (`float` addition,
subtraction, multiplication, division, `sqrtf`), abstracted as functions
on bit patterns: no claim constrains the numeric results, only the
guard/error behaviour around them, so the embedding is parametric in
them. -/
structure FloatOps where
  fadd : Nat → Nat → Nat
  fsub : Nat → Nat → Nat
  fmul : Nat → Nat → Nat
  fdiv : Nat → Nat → Nat
  fsqrt : Nat → Nat

/-- `bits == 0.0f` on an IEEE-754 binary32 bit pattern: both `+0.0`
(all-zero) and `-0.0` (sign bit only) compare equal to zero, every other
pattern — including every NaN, for which `!=` is true — does not. -/
def f32IsZero (bits : Nat) : Bool := bits &&& 0x7FFFFFFF == 0

/-- NaN test on a binary32 bit pattern: exponent all-ones with a nonzero
mantissa. -/
def f32IsNaN (bits : Nat) : Bool :=
  (bits &&& 0x7F800000 == 0x7F800000) && (bits &&& 0x007FFFFF != 0)

/-- Finiteness test on a binary32 bit pattern: exponent not all-ones. -/
def f32IsFinite (bits : Nat) : Bool := bits &&& 0x7F800000 != 0x7F800000

/-- `bits >= 0.0f` on a binary32 bit pattern: true for `±0.0` and for any
non-NaN value with a clear sign bit; false for NaN (unordered) and for
negative values. -/
def f32GeZero (bits : Nat) : Bool :=
  (bits &&& 0x7FFFFFFF == 0) || ((bits &&& 0x80000000 == 0) && !(f32IsNaN bits))

/-- `cpu_execute_floating_point` from `cpu-implementation.c` (lines
359-396): reads `fpr[rs1]` and `fpr[rs2]`, computes the funct-selected
IEEE result and writes it back to `fpr[rs1]`; FDIV returns `-1` when the
divisor compares equal to `0.0f`, FSQRT returns `-1` when the operand is
not `>= 0.0f`, and unknown functs return `-1`; all error paths leave the
register file untouched. -/
def cpu_execute_floating_point (ops : FloatOps) (inst : Instruction)
    (regs : RegisterFile) : Int × RegisterFile :=
  let rs1_val := regs.fpr (regIndex inst.rs1)
  let rs2_val := regs.fpr (regIndex inst.rs2)
  let result? : Option Nat :=
    match inst.funct.val with
    | 0x0 => some (ops.fadd rs1_val rs2_val)
    | 0x1 => some (ops.fsub rs1_val rs2_val)
    | 0x2 => some (ops.fmul rs1_val rs2_val)
    | 0x3 => if !(f32IsZero rs2_val) then some (ops.fdiv rs1_val rs2_val) else none
    | 0x4 => if f32GeZero rs1_val then some (ops.fsqrt rs1_val) else none
    | _ => none
  match result? with
  | none => (-1, regs)
  | some result =>
    (0, { regs with fpr := Function.update regs.fpr (regIndex inst.rs1) result })

/-- A 4-bit register selector indexes into the 32-entry vector bank. -/
def vecIndex (r : Fin 16) : Fin 32 := ⟨r.val, by omega⟩

/-- Reduction into the `uint8_t` value range. -/
def wrap8 (x : Int) : Nat := (x % (256 : Int)).toNat

/-- `cpu_execute_vector` from `cpu-implementation.c` (lines 399-435):
byte-wise operations over the 64 bytes of `vector[rs1]` and
`vector[rs2]`, written back in place to `vector[rs1]` (each byte is read
before the same index is overwritten, so aliasing is benign); VDIV writes
0 for zero divisor bytes. -/
def cpu_execute_vector (inst : Instruction) (regs : RegisterFile) :
    Int × RegisterFile :=
  let v1 := regs.vector (vecIndex inst.rs1)
  let v2 := regs.vector (vecIndex inst.rs2)
  let vd? : Option (Fin 64 → Nat) :=
    match inst.funct.val with
    | 0x0 => some (fun i => (v1 i + v2 i) % 256)
    | 0x1 => some (fun i => wrap8 ((v1 i : Int) - (v2 i : Int)))
    | 0x2 => some (fun i => (v1 i * v2 i) % 256)
    | 0x3 => some (fun i => if v2 i ≠ 0 then v1 i / v2 i else 0)
    | _ => none
  match vd? with
  | none => (-1, regs)
  | some vd =>
    (0, { regs with vector := Function.update regs.vector (vecIndex inst.rs1) vd })

/-- `cpu_execute_ai_ml` from `cpu-implementation.c` (lines 438-458): the
recognised functs only print a message; architectural state is unchanged
and the status reports recognition. -/
def cpu_execute_ai_ml (inst : Instruction) (regs : RegisterFile) :
    Int × RegisterFile :=
  match inst.funct.val with
  | 0x0 => (0, regs)
  | 0x2 => (0, regs)
  | 0x5 => (0, regs)
  | _ => (-1, regs)

/-- `cpu_execute_mimd` from `cpu-implementation.c` (lines 461-481): the
recognised functs only print a message; architectural state is unchanged
and the status reports recognition. -/
def cpu_execute_mimd (inst : Instruction) (regs : RegisterFile) :
    Int × RegisterFile :=
  match inst.funct.val with
  | 0x0 => (0, regs)
  | 0x1 => (0, regs)
  | 0x2 => (0, regs)
  | 0x3 => (0, regs)
  | _ => (-1, regs)

/-- `cpu_execute_instruction` from `cpu-implementation.c` (lines 484-532):
decode, then dispatch on the decoded operation.  Operation kinds with no
`case` label in the C `switch` — CMP, TEST, CLZ, CTZ, POPCNT, LOAD,
STORE, the branches, NOT, SYSCALL, RET, NOP — fall through to `default:
return -1`. -/
def cpu_execute_instruction (ops : FloatOps) (inst : Instruction)
    (regs : RegisterFile) : Int × RegisterFile :=
  match cpu_decode_instruction inst with
  | none => (-1, regs)
  | some t =>
    match t with
    | .ADD | .SUB | .MUL | .DIV | .MOD
    | .AND | .OR | .XOR | .SHL | .SHR | .ROT => cpu_execute_arithmetic inst regs
    | .FADD | .FSUB | .FMUL | .FDIV | .FSQRT =>
      cpu_execute_floating_point ops inst regs
    | .VADD | .VSUB | .VMUL | .VDIV => cpu_execute_vector inst regs
    | .CONV | .RELU | .SOFTMAX => cpu_execute_ai_ml inst regs
    | .BARRIER | .LOCK | .UNLOCK | .ATOMIC => cpu_execute_mimd inst regs
    | _ => (-1, regs)

/-- A concrete instance of the abstracted FPU arithmetic, used to
evaluate the status-path theorems on closed inputs. -/
def trivialFloatOps : FloatOps :=
  ⟨fun _ _ => 0, fun _ _ => 0, fun _ _ => 0, fun _ _ => 0, fun _ => 0⟩

/-- C4 (the code contradicts this claim): instructions decoding to CMP,
CLZ, CTZ and POPCNT (R-type funct `0xB`-`0xE`) are recognised by the
decoder, yet `cpu_execute_instruction` has no dispatch case for them and
returns the failure status `-1` with the register file unchanged — they
never execute, for every operand and every register state. -/
theorem cmp_clz_ctz_popcnt_never_execute (ops : FloatOps) (regs : RegisterFile)
    (r2 r1 : Fin 16) (imm ext : Nat) :
    (cpu_decode_instruction ⟨0, 0xB, r2, r1, imm, ext⟩ = some .CMP
      ∧ cpu_execute_instruction ops ⟨0, 0xB, r2, r1, imm, ext⟩ regs = (-1, regs))
    ∧ (cpu_decode_instruction ⟨0, 0xC, r2, r1, imm, ext⟩ = some .CLZ
      ∧ cpu_execute_instruction ops ⟨0, 0xC, r2, r1, imm, ext⟩ regs = (-1, regs))
    ∧ (cpu_decode_instruction ⟨0, 0xD, r2, r1, imm, ext⟩ = some .CTZ
      ∧ cpu_execute_instruction ops ⟨0, 0xD, r2, r1, imm, ext⟩ regs = (-1, regs))
    ∧ (cpu_decode_instruction ⟨0, 0xE, r2, r1, imm, ext⟩ = some .POPCNT
      ∧ cpu_execute_instruction ops ⟨0, 0xE, r2, r1, imm, ext⟩ regs = (-1, regs)) :=
  ⟨⟨rfl, rfl⟩, ⟨rfl, rfl⟩, ⟨rfl, rfl⟩, ⟨rfl, rfl⟩⟩

/-- The FDIV error condition exactly as the specification words it
(spec-side definition, for comparison with the code): divisor exactly
zero AND dividend finite AND dividend nonzero. -/
def fdivErrorClaimed (rs1bits rs2bits : Nat) : Prop :=
  f32IsZero rs2bits = true ∧ f32IsFinite rs1bits = true ∧ f32IsZero rs1bits = false

/-- C7 counterexample: with dividend `+0.0` (bit pattern 0) and divisor
`+0.0`, the code rejects the FDIV with status `-1` even though the
claimed error condition (divisor zero and dividend finite nonzero) does
not hold — the claim that FDIV succeeds for a zero dividend over a zero
divisor is false of the code. -/
theorem fdiv_rejects_zero_over_zero :
    (cpu_execute_floating_point trivialFloatOps ⟨8, 3, 2, 1, 0, 0⟩ zeroRegs).1 = -1
    ∧ ¬ fdivErrorClaimed (zeroRegs.fpr (regIndex (1 : Fin 16)))
        (zeroRegs.fpr (regIndex (2 : Fin 16))) := by
  constructor
  · rfl
  · intro h
    exact absurd h.2.2 (by decide)

/-- C7 as amended: an FDIV instruction (funct `0x3`) is rejected with
status `-1` precisely when the divisor `fpr[rs2]` compares equal to
`0.0f` (bit pattern `±0.0`), regardless of the dividend — zero, infinite
or NaN dividends over a zero divisor are rejected too; any nonzero
divisor (including NaN) makes the operation succeed. -/
theorem fdiv_error_iff_zero_divisor (ops : FloatOps) (inst : Instruction)
    (regs : RegisterFile) (hf : inst.funct.val = 0x3) :
    ((cpu_execute_floating_point ops inst regs).1 = -1 ↔
      f32IsZero (regs.fpr (regIndex inst.rs2)) = true) := by
  cases hz : f32IsZero (regs.fpr (regIndex inst.rs2)) <;>
    simp [cpu_execute_floating_point, hf, hz]

theorem fdiv_error_iff_zero_divisor_witness :
    (cpu_execute_floating_point trivialFloatOps ⟨8, 3, 2, 1, 0, 0⟩ zeroRegs).1 = -1 :=
  (fdiv_error_iff_zero_divisor trivialFloatOps ⟨8, 3, 2, 1, 0, 0⟩ zeroRegs rfl).mpr rfl

/-! ## Vector operations (`vector-operations.c`)

`alpha_ahb_vector_t` is a 64-byte buffer that `vector_add_int32` and
`vector_mul_int32` access exclusively through 4-byte `memcpy` at offsets
`4*i`, i.e. through the 16-lane × 32-bit little-endian window the spec
describes; the embedding works directly at that lane granularity, each
lane held as its 32-bit pattern. -/

/-- The signed (two's-complement) value of a 32-bit lane pattern, i.e.
the `int32_t` obtained by `memcpy` from the lane bytes. -/
def asInt32 (bits : Nat) : Int :=
  if bits % 2 ^ 32 < 2 ^ 31 then ((bits % 2 ^ 32 : Nat) : Int)
  else ((bits % 2 ^ 32 : Nat) : Int) - 2 ^ 32

/-- The 32-bit lane pattern of an integer value, i.e. the bytes `memcpy`
writes for the `int32_t` holding that (wrapped) value. -/
def toBits32 (x : Int) : Nat := (x % (2 ^ 32 : Int)).toNat

/-- `vector_result_t` from `vector-operations.c`. -/
structure VectorResult where
  result : Fin 16 → Nat
  flags : Nat
  cycles : Nat

/-- The per-lane sign-based signed-overflow test of `vector_add_int32`
(`vector-operations.c` lines 110-113), on the `int32_t` views of the two
operand lanes and of the wrapped sum. -/
def addLaneOverflow (a b : Fin 16 → Nat) (i : Fin 16) : Prop :=
  let val_a := asInt32 (a i)
  let val_b := asInt32 (b i)
  let val_result := asInt32 (toBits32 (val_a + val_b))
  (0 < val_a ∧ 0 < val_b ∧ val_result < 0) ∨ (val_a < 0 ∧ val_b < 0 ∧ 0 < val_result)

instance (a b : Fin 16 → Nat) : DecidablePred (addLaneOverflow a b) := fun i => by
  unfold addLaneOverflow
  exact inferInstance

/-- `vector_add_int32` from `vector-operations.c` (lines 95-117): 16
independent lane additions of the `int32_t` views (overflow wraps,
matching the machine arithmetic the spec documents as wraparound), with
`result.flags |= (1 << i)` for each lane passing the sign-based overflow
test, and the fixed 2-cycle cost. -/
def vector_add_int32 (a b : Fin 16 → Nat) : VectorResult :=
  ⟨fun i => toBits32 (asInt32 (a i) + asInt32 (b i)),
   (List.finRange 16).foldl
     (fun fl i => if addLaneOverflow a b i then fl ||| (1 <<< i.val) else fl) 0,
   2⟩

/-- The per-lane widened-product overflow test of `vector_mul_int32`
(`vector-operations.c` line 135): the exact `int64_t` product (the 64-bit
widening is exact, since a product of two `int32_t` values always fits)
outside the signed 32-bit range. -/
def mulLaneOverflow (a b : Fin 16 → Nat) (i : Fin 16) : Prop :=
  2 ^ 31 - 1 < asInt32 (a i) * asInt32 (b i) ∨ asInt32 (a i) * asInt32 (b i) < -(2 ^ 31)

instance (a b : Fin 16 → Nat) : DecidablePred (mulLaneOverflow a b) := fun i => by
  unfold mulLaneOverflow
  exact inferInstance

/-- `vector_mul_int32` from `vector-operations.c` (lines 120-145): each
lane product computed in the widened 64-bit intermediate; out-of-range
products are clamped to `INT32_MAX`/`INT32_MIN` (by the sign of the
product) with the lane's overflow flag bit set; the lane stores the final
`int32_t` pattern, and the cycle cost is 4. -/
def vector_mul_int32 (a b : Fin 16 → Nat) : VectorResult :=
  ⟨fun i =>
     let val_result := asInt32 (a i) * asInt32 (b i)
     if 2 ^ 31 - 1 < val_result ∨ val_result < -(2 ^ 31) then
       toBits32 (if 0 < val_result then 2 ^ 31 - 1 else -(2 ^ 31))
     else toBits32 val_result,
   (List.finRange 16).foldl
     (fun fl i => if mulLaneOverflow a b i then fl ||| (1 <<< i.val) else fl) 0,
   4⟩

/-- Bit `j` of a flags word built by OR-ing `1 << i` for each list element
satisfying `p` is set iff `j` was already set or some listed lane with
index `j` satisfies `p`. -/
theorem testBit_foldl_set (p : Fin 16 → Prop) [DecidablePred p]
    (l : List (Fin 16)) (init : Nat) (j : Nat) :
    ((l.foldl (fun fl i => if p i then fl ||| (1 <<< i.val) else fl) init).testBit j)
      = (init.testBit j || l.any (fun i => i.val == j && decide (p i))) := by
  induction l generalizing init with
  | nil => simp
  | cons x xs ih =>
    simp only [List.foldl_cons, List.any_cons, ih]
    by_cases hp : p x
    · have hbit : (1 <<< x.val).testBit j = decide (x.val = j) := by
        rw [Nat.shiftLeft_eq, one_mul]
        by_cases hxj : x.val = j
        · simp [hxj, Nat.testBit_two_pow_self]
        · simp [hxj, Nat.testBit_two_pow_of_ne hxj]
      simp only [hp, if_pos, Nat.testBit_lor, hbit]
      cases hinit : init.testBit j <;> by_cases hxj : x.val = j <;>
        simp [hxj, hp, Bool.or_assoc, Bool.or_comm, Bool.or_left_comm]
    · simp [hp]

/-- Any lane flag built by the fold is characterised pointwise. -/
theorem flags_testBit (p : Fin 16 → Prop) [DecidablePred p] (i : Fin 16) :
    (((List.finRange 16).foldl
        (fun fl k => if p k then fl ||| (1 <<< k.val) else fl) 0).testBit i.val)
      = decide (p i) := by
  rw [testBit_foldl_set]
  simp only [Nat.zero_testBit, Bool.false_or]
  cases hp : decide (p i) with
  | true =>
    apply List.any_eq_true.mpr
    exact ⟨i, List.mem_finRange i, by simp [hp]⟩
  | false =>
    apply List.any_eq_false.mpr
    intro x _
    intro hx
    rcases (Bool.and_eq_true _ _).mp hx with ⟨h1, h2⟩
    have hval : (x : Nat) = (i : Nat) := by simpa using h1
    have : x = i := Fin.ext hval
    subst this
    rw [hp] at h2
    cases h2

/-- Lane arithmetic of `vector_add_int32` is the two's-complement
wraparound sum of the lane patterns. -/
theorem toBits32_add (x y : Nat) : toBits32 (asInt32 x + asInt32 y) = (x + y) % 2 ^ 32 := by
  unfold toBits32 asInt32
  split <;> split <;> push_cast <;> omega

/-- C5: `vector_add_int32` operates on 16 independent 32-bit lanes: each
result lane is the two's-complement wraparound sum of the corresponding
input lanes, and bit `i` of the result-flags word is set iff lane `i`
overflowed under the sign-based signed-overflow test; in particular
adding lanes `{1..16}` to `{2,4,...,32}` yields `{3,6,...,48}` with all
overflow flags zero. -/
theorem vector_add_lanes_and_flags :
    (∀ (a b : Fin 16 → Nat) (i : Fin 16),
      (vector_add_int32 a b).result i = (a i + b i) % 2 ^ 32
      ∧ ((vector_add_int32 a b).flags.testBit i.val = true ↔
          ((0 < asInt32 (a i) ∧ 0 < asInt32 (b i) ∧ asInt32 ((a i + b i) % 2 ^ 32) < 0)
           ∨ (asInt32 (a i) < 0 ∧ asInt32 (b i) < 0 ∧ 0 < asInt32 ((a i + b i) % 2 ^ 32)))))
    ∧ (∀ i : Fin 16,
        (vector_add_int32 (fun k => k.val + 1) (fun k => 2 * (k.val + 1))).result i
          = 3 * (i.val + 1))
    ∧ (vector_add_int32 (fun k => k.val + 1) (fun k => 2 * (k.val + 1))).flags = 0 := by
  refine ⟨fun a b i => ⟨toBits32_add (a i) (b i), ?_⟩, by decide, by decide⟩
  have h : (vector_add_int32 a b).flags.testBit i.val = decide (addLaneOverflow a b i) :=
    flags_testBit (addLaneOverflow a b) i
  rw [h, decide_eq_true_eq]
  unfold addLaneOverflow
  simp only [toBits32_add]

/-- C6: `vector_mul_int32` computes each lane product exactly (the 64-bit
widened intermediate is exact for products of two `int32_t` values);
products above `INT32_MAX` clamp to `INT32_MAX`, products below
`INT32_MIN` clamp to `INT32_MIN`, in both cases setting that lane's
overflow flag bit; representable products are stored exactly with the
flag bit clear. -/
theorem vector_mul_saturates :
    ∀ (a b : Fin 16 → Nat) (i : Fin 16),
      ((vector_mul_int32 a b).result i =
        (if 2 ^ 31 - 1 < asInt32 (a i) * asInt32 (b i) then 0x7FFFFFFF
         else if asInt32 (a i) * asInt32 (b i) < -(2 ^ 31) then 0x80000000
         else toBits32 (asInt32 (a i) * asInt32 (b i))))
      ∧ ((vector_mul_int32 a b).flags.testBit i.val = true ↔
          (2 ^ 31 - 1 < asInt32 (a i) * asInt32 (b i)
           ∨ asInt32 (a i) * asInt32 (b i) < -(2 ^ 31))) := by
  intro a b i
  constructor
  · show (let val_result := asInt32 (a i) * asInt32 (b i);
      if 2 ^ 31 - 1 < val_result ∨ val_result < -(2 ^ 31) then
        toBits32 (if 0 < val_result then 2 ^ 31 - 1 else -(2 ^ 31))
      else toBits32 val_result) = _
    by_cases h1 : 2 ^ 31 - 1 < asInt32 (a i) * asInt32 (b i)
    · have h0 : 0 < asInt32 (a i) * asInt32 (b i) := by omega
      simp only [h1, h0, if_pos, or_true, true_or, if_true]
      decide
    · by_cases h2 : asInt32 (a i) * asInt32 (b i) < -(2 ^ 31)
      · have h0 : ¬ 0 < asInt32 (a i) * asInt32 (b i) := by omega
        simp only [h1, h2, h0, if_neg, not_false_iff, if_pos, false_or, if_false, if_true]
        decide
      · have : ¬ (2 ^ 31 - 1 < asInt32 (a i) * asInt32 (b i)
            ∨ asInt32 (a i) * asInt32 (b i) < -(2 ^ 31)) := by omega
        simp only [h1, h2, this, if_neg, not_false_iff, if_false]
        simp
  · have h : (vector_mul_int32 a b).flags.testBit i.val = decide (mulLaneOverflow a b i) :=
      flags_testBit (mulLaneOverflow a b) i
    rw [h, decide_eq_true_eq]
    unfold mulLaneOverflow
    exact Iff.rfl

/-! ## NPU dense layer (`neural-network.c`) -/

/-- Two's-complement wraparound into the `int32_t` value range
(`npu_accumulator_t`); C signed-overflow is modelled as the conventional
wraparound of the underlying machine arithmetic. -/
def int32Wrap (x : Int) : Int :=
  if x % 2 ^ 32 < 2 ^ 31 then x % 2 ^ 32 else x % 2 ^ 32 - 2 ^ 32

/-- Two's-complement wraparound into the `int16_t` value range
(`npu_activation_t`); this is the `(npu_activation_t)sum` cast. -/
def int16Wrap (x : Int) : Int :=
  if x % 2 ^ 16 < 2 ^ 15 then x % 2 ^ 16 else x % 2 ^ 16 - 2 ^ 16

/-- `npu_activation_relu` from `neural-network.c`: `(x > 0) ? x : 0`. -/
def npu_activation_relu (x : Int) : Int := if 0 < x then x else 0

/-- `pe_per_output` as computed by `npu_dense_forward`
(`neural-network.c` lines 309-310): `NPU_PE_COUNT / output_size`, bumped
to 1 when the division yields 0. -/
def pePerOutput (output_size : Nat) : Nat :=
  let p := 1024 / output_size
  if p = 0 then 1 else p

/-- `npu_dense_forward` from `neural-network.c` (lines 249-289), as the
function from output index to written output value.  For each output
neuron the C code accumulates `weights[out_idx*input_size + pe_idx] *
input[pe_idx]` for `pe_idx < pe_per_output && pe_idx < input_size` (each
product and running sum held in the `int32_t` accumulator), adds the
bias, casts the accumulator to the 16-bit activation type and applies the
activation function.  The per-PE bookkeeping (`weight`, `activation`,
`accumulator`, `active` fields) is write-only with respect to the output
values and is omitted; the activation function is a parameter (the C
dispatches through `npu_apply_activation`). -/
def npu_dense_forward (act : Int → Int) (input_size output_size : Nat)
    (weights biases input : Nat → Int) : Nat → Int := fun out_idx =>
  let k := min (pePerOutput output_size) input_size
  let sum := (List.range k).foldl
    (fun s i => int32Wrap (s + int32Wrap (weights (out_idx * input_size + i) * input i))) 0
  act (int16Wrap (int32Wrap (sum + biases out_idx)))

/-- The dense-layer forward pass exactly as the specification words it
(spec-side definition, for comparison with the code): `output[j] =
activation(Σ_i input[i]·weight[i][j] + bias[j])` with the dot product
ranging over the entire input vector and accumulation in the 32-bit
accumulator type. -/
def npu_dense_forward_claimed (act : Int → Int) (input_size : Nat)
    (weightM : Nat → Nat → Int) (biases input : Nat → Int) : Nat → Int := fun j =>
  act (int16Wrap (int32Wrap (∑ i in Finset.range input_size, input i * weightM i j + biases j)))

theorem int32Wrap_add_left (x y : Int) :
    int32Wrap (int32Wrap x + y) = int32Wrap (x + y) := by
  unfold int32Wrap
  split <;> split <;> omega

theorem int32Wrap_add_right (x y : Int) :
    int32Wrap (x + int32Wrap y) = int32Wrap (x + y) := by
  unfold int32Wrap
  split <;> split <;> omega

/-- The C accumulation loop collapses to a single wraparound of the exact
dot-product sum. -/
theorem foldl_int32Wrap (f : Nat → Int) (l : List Nat) (init : Int) :
    l.foldl (fun s i => int32Wrap (s + int32Wrap (f i))) (int32Wrap init)
      = int32Wrap (init + (l.map f).sum) := by
  induction l generalizing init with
  | nil => simp
  | cons x xs ih =>
    simp only [List.foldl_cons, List.map_cons, List.sum_cons]
    rw [int32Wrap_add_left, int32Wrap_add_right, ih, add_assoc]

theorem sum_range_list (n : Nat) (f : Nat → Int) :
    (∑ i in Finset.range n, f i) = ((List.range n).map f).sum := by
  induction n with
  | zero => simp
  | succ m ih => rw [Finset.sum_range_succ, List.range_succ]; simp [ih]

/-- C8 counterexample: a dense layer with `input_size = 2` and
`output_size = 1024` gives `pe_per_output = 1`, so the inner loop of
`npu_dense_forward` reads only `input[0]`: with all-one weights, zero
bias, ReLU and input `[0, 5]`, the code computes `output[0] = 0` while
the specified full dot product yields `5` — the dot product does not
range over the entire input vector. -/
theorem dense_forward_misses_inputs :
    npu_dense_forward npu_activation_relu 2 1024 (fun _ => 1) (fun _ => 0)
        (fun i => if i = 0 then 0 else 5) 0 = 0
    ∧ npu_dense_forward_claimed npu_activation_relu 2 (fun _ _ => 1) (fun _ => 0)
        (fun i => if i = 0 then 0 else 5) 0 = 5 := by
  constructor <;> decide

/-- C8 as amended: for every dense layer and input, the code computes
`output[j] = activation(int16((Σ_{i < min(input_size, pe_per_output)}
weight[j·input_size+i]·input[i]) + bias[j]))`, with every product and
partial sum wrapped to the 32-bit accumulator; the dot product covers the
first `min(input_size, max(1, 1024/output_size))` inputs only (the
per-output PE budget), which is the whole input exactly when
`input_size ≤ max(1, 1024/output_size)`.  In particular the spec's
identity example (input `[1,1]`, identity weights, zero bias, ReLU,
`input_size = output_size = 2`) still yields `[1,1]`. -/
theorem dense_forward_truncated_dot :
    (∀ (act : Int → Int) (is os : Nat) (w b inp : Nat → Int) (j : Nat),
      npu_dense_forward act is os w b inp j =
        act (int16Wrap (int32Wrap
          ((∑ i in Finset.range (min (pePerOutput os) is), w (j * is + i) * inp i) + b j))))
    ∧ (∀ j : Fin 2,
        npu_dense_forward npu_activation_relu 2 2
          (fun a => if a = 0 ∨ a = 3 then 1 else 0) (fun _ => 0) (fun _ => 1) j.val = 1) := by
  constructor
  · intro act is os w b inp j
    show act (int16Wrap (int32Wrap
        ((List.range (min (pePerOutput os) is)).foldl
          (fun s i => int32Wrap (s + int32Wrap (w (j * is + i) * inp i))) 0 + b j))) = _
    have h0 : (0 : Int) = int32Wrap 0 := by decide
    rw [h0, foldl_int32Wrap, int32Wrap_add_left, zero_add, sum_range_list]
  · decide

/-! ## MIMD barrier (`advanced-arithmetic.c`)

`mimd_barrier_wait` (lines 283-294) executes its whole body inside
`pthread_mutex_lock`/`unlock`, so concurrent calls serialize: each call
is one atomic transition on the shared barrier state.  `pthread_cond_wait`
is modelled as suspending the caller until a broadcast (the idealized
condition-variable semantics, without spurious wakeups), and
`pthread_cond_broadcast` as releasing every suspended waiter.  A
participant is modelled by its phase: not yet arrived, suspended in the
barrier, or released from it; `mimd_barrier_init` with participant count
`n` gives the initial state. -/

/-- The phase of one participating thread with respect to one rendezvous
of the barrier. -/
inductive ThreadPhase where
  | beforeBarrier
  | waiting
  | released
deriving DecidableEq

/-- The shared `mimd_barrier_t` counter together with the participants'
phases, for a barrier whose `total` is the participant count `n`. -/
structure BarrierState (n : Nat) where
  count : Nat
  phase : Fin n → ThreadPhase

/-- One call of `mimd_barrier_wait` by thread `t` (the mutex-protected
body as a single atomic step): the caller must not have passed the
barrier already in this rendezvous; the counter is incremented; if it
reaches `total` it is reset to zero and all suspended waiters (and the
caller) are released, otherwise the caller suspends on the condition
variable. -/
def mimd_barrier_wait (n : Nat) (s : BarrierState n) (t : Fin n) :
    Option (BarrierState n) :=
  if s.phase t = ThreadPhase.beforeBarrier then
    if s.count + 1 = n then
      some ⟨0, fun u => if s.phase u = ThreadPhase.waiting ∨ u = t
                        then ThreadPhase.released else s.phase u⟩
    else
      some ⟨s.count + 1, Function.update s.phase t ThreadPhase.waiting⟩
  else none

/-- States reachable from the freshly initialised barrier
(`mimd_barrier_init`: counter zero, nobody arrived) by interleaved
`mimd_barrier_wait` calls. -/
inductive Reachable (n : Nat) : BarrierState n → Prop where
  | start : Reachable n ⟨0, fun _ => ThreadPhase.beforeBarrier⟩
  | step {s : BarrierState n} {t : Fin n} {s' : BarrierState n} :
      Reachable n s → mimd_barrier_wait n s t = some s' → Reachable n s'

/-- Number of participants currently suspended inside the barrier. -/
def waitingCount {n : Nat} (phase : Fin n → ThreadPhase) : Nat :=
  (Finset.univ.filter (fun t => phase t = ThreadPhase.waiting)).card

theorem waitingCount_update {n : Nat} (phase : Fin n → ThreadPhase) (t : Fin n)
    (h : phase t ≠ ThreadPhase.waiting) :
    waitingCount (Function.update phase t ThreadPhase.waiting) = waitingCount phase + 1 := by
  unfold waitingCount
  have hset : Finset.univ.filter
        (fun u => Function.update phase t ThreadPhase.waiting u = ThreadPhase.waiting)
      = insert t (Finset.univ.filter (fun u => phase u = ThreadPhase.waiting)) := by
    ext u
    by_cases hu : u = t
    · subst hu
      simp [Function.update_same]
    · simp [Function.update_noteq hu, hu]
  rw [hset, Finset.card_insert_of_not_mem (by simp [h])]

/-- The inductive invariant of the barrier: either the rendezvous is
still open — nobody released, and the counter equals the number of
suspended waiters — or it has fired: everybody released and the counter
reset to zero. -/
def BarrierInv {n : Nat} (s : BarrierState n) : Prop :=
  ((∀ t, s.phase t ≠ ThreadPhase.released) ∧ s.count = waitingCount s.phase)
  ∨ ((∀ t, s.phase t = ThreadPhase.released) ∧ s.count = 0)

theorem barrier_inv {n : Nat} {s : BarrierState n} (h : Reachable n s) :
    BarrierInv s := by
  induction h with
  | start =>
    left
    refine ⟨fun t => by nofun, ?_⟩
    unfold waitingCount
    simp
  | @step s t s' hr hstep ih =>
    by_cases hbt : s.phase t = ThreadPhase.beforeBarrier
    · rw [mimd_barrier_wait, if_pos hbt] at hstep
      rcases ih with ⟨hnr, hc⟩ | ⟨hall, _⟩
      · by_cases hfin : s.count + 1 = n
        · rw [if_pos hfin] at hstep
          injection hstep with hs'
          subst hs'
          right
          refine ⟨?_, rfl⟩
          intro u
          by_cases hu : s.phase u = ThreadPhase.waiting ∨ u = t
          · simp [hu]
          · exfalso
            have hsub : (Finset.univ.filter (fun v => s.phase v = ThreadPhase.waiting))
                ⊆ Finset.univ.erase t := by
              intro v hv
              rcases Finset.mem_filter.mp hv with ⟨_, hw⟩
              refine Finset.mem_erase.mpr ⟨?_, Finset.mem_univ v⟩
              rintro rfl
              rw [hbt] at hw
              cases hw
            have hcard : (Finset.univ.erase t).card = n - 1 := by
              rw [Finset.card_erase_of_mem (Finset.mem_univ t), Finset.card_univ,
                Fintype.card_fin]
            have hwc : waitingCount s.phase = n - 1 := by
              unfold waitingCount at hc ⊢
              omega
            have heq : (Finset.univ.filter (fun v => s.phase v = ThreadPhase.waiting))
                = Finset.univ.erase t :=
              Finset.eq_of_subset_of_card_le hsub (by
                rw [hcard]
                exact le_of_eq hwc.symm)
            have hu_mem : u ∈ Finset.univ.erase t :=
              Finset.mem_erase.mpr ⟨fun hut => hu (Or.inr hut), Finset.mem_univ u⟩
            rw [← heq] at hu_mem
            exact hu (Or.inl (Finset.mem_filter.mp hu_mem).2)
        · rw [if_neg hfin] at hstep
          injection hstep with hs'
          subst hs'
          left
          constructor
          · intro u
            by_cases hu : u = t
            · subst hu
              show Function.update s.phase u ThreadPhase.waiting u ≠ ThreadPhase.released
              rw [Function.update_same]
              nofun
            · show Function.update s.phase t ThreadPhase.waiting u ≠ ThreadPhase.released
              rw [Function.update_noteq hu]
              exact hnr u
          · show s.count + 1 = waitingCount (Function.update s.phase t ThreadPhase.waiting)
            rw [waitingCount_update s.phase t (by rw [hbt]; nofun)]
            omega
      · have := hall t
        rw [hbt] at this
        cases this
    · rw [mimd_barrier_wait, if_neg hbt] at hstep
      cases hstep

/-- C9: for a barrier with `n` participants, in every reachable state
(1) a released participant is only observable once every participant has
arrived — indeed all are released together — with the counter already
reset to zero (so the barrier is reusable for the next rendezvous), and
(2) a `mimd_barrier_wait` call that makes the counter reach `n` resets it
to zero and releases all `n-1` previously suspended waiters together with
the caller, while any earlier call just increments the counter and
suspends the caller. -/
theorem barrier_rendezvous (n : Nat) (s : BarrierState n) (h : Reachable n s) :
    (∀ t, s.phase t = ThreadPhase.released →
        (∀ u, s.phase u ≠ ThreadPhase.beforeBarrier) ∧ s.count = 0)
    ∧ (∀ (t : Fin n) (s' : BarrierState n), mimd_barrier_wait n s t = some s' →
        (s.count + 1 = n → s'.count = 0 ∧ ∀ u, s'.phase u = ThreadPhase.released)
        ∧ (s.count + 1 ≠ n →
            s'.count = s.count + 1 ∧ s'.phase t = ThreadPhase.waiting)) := by
  constructor
  · intro t ht
    rcases barrier_inv h with ⟨hnr, _⟩ | ⟨hall, hc⟩
    · exact absurd ht (hnr t)
    · refine ⟨fun u => ?_, hc⟩
      rw [hall u]
      nofun
  · intro t s' hstep
    have hinv' := barrier_inv (Reachable.step h hstep)
    by_cases hbt : s.phase t = ThreadPhase.beforeBarrier
    · rw [mimd_barrier_wait, if_pos hbt] at hstep
      by_cases hfin : s.count + 1 = n
      · rw [if_pos hfin] at hstep
        injection hstep with hs'
        subst hs'
        refine ⟨fun _ => ⟨rfl, ?_⟩, fun hne => absurd hfin hne⟩
        rcases hinv' with ⟨hnr, _⟩ | ⟨hall, _⟩
        · exfalso
          exact hnr t (by simp)
        · exact hall
      · rw [if_neg hfin] at hstep
        injection hstep with hs'
        subst hs'
        refine ⟨fun hfin' => absurd hfin' hfin, fun _ => ⟨rfl, ?_⟩⟩
        show Function.update s.phase t ThreadPhase.waiting t = ThreadPhase.waiting
        rw [Function.update_same]
    · rw [mimd_barrier_wait, if_neg hbt] at hstep
      cases hstep

/-- The spec's four-participant scenario, arrival by arrival: the state
after three of four participants have called `mimd_barrier_wait`. -/
def barrierDemo0 : BarrierState 4 := ⟨0, fun _ => ThreadPhase.beforeBarrier⟩

def barrierDemo1 : BarrierState 4 :=
  ⟨1, Function.update barrierDemo0.phase 0 ThreadPhase.waiting⟩

def barrierDemo2 : BarrierState 4 :=
  ⟨2, Function.update barrierDemo1.phase 1 ThreadPhase.waiting⟩

def barrierDemo3 : BarrierState 4 :=
  ⟨3, Function.update barrierDemo2.phase 2 ThreadPhase.waiting⟩

theorem barrier_rendezvous_witness :
    ∃ s' : BarrierState 4,
      mimd_barrier_wait 4 barrierDemo3 3 = some s'
      ∧ s'.count = 0 ∧ (∀ u, s'.phase u = ThreadPhase.released) := by
  have h0 : Reachable 4 barrierDemo0 := Reachable.start
  have h1 : Reachable 4 barrierDemo1 := @Reachable.step 4 barrierDemo0 0 barrierDemo1 h0 rfl
  have h2 : Reachable 4 barrierDemo2 := @Reachable.step 4 barrierDemo1 1 barrierDemo2 h1 rfl
  have h3 : Reachable 4 barrierDemo3 := @Reachable.step 4 barrierDemo2 2 barrierDemo3 h2 rfl
  obtain ⟨hcnt, hrel⟩ := ((barrier_rendezvous 4 barrierDemo3 h3).2 3 _ rfl).1 rfl
  exact ⟨_, rfl, hcnt, hrel⟩

end AlphaAHB
